import Mathlib

/-!
# Verification of the ScaP language-selection and download-orchestration core

Shallow embedding, in Lean 4, of the parts of the ScaP repository that the
checked claims are about:

* `src/language_guard.py` — label-based language classification
  (`guess_audio_and_dub` over the regex tables `LANG_MAP`, `DUB_PATTERNS`,
  `SPECIAL_PATTERNS`), variant selection (`pick_best`, `sort_by_preference`),
  and post-download verification (`verify_language`, `remux_to_de` and their
  helpers).
* `src/scraper.py` — the `DownloadStatus` state record, the batch entry point
  `StreamScraper.start_download`, the retry/demotion loop of
  `StreamScraper._download_video`, and `RealDebrid.unrestrict_link`.

External effects (ffprobe, ffmpeg, whisper, the Real-Debrid HTTP API, yt-dlp,
the VOE fallback downloader, cooperative cancellation) are modelled as oracle
inputs; everything that is pure in the Python source is translated directly.
Python dictionaries keep insertion order, so pattern tables are lists of
(key, patterns) pairs in source order; Python sets that only undergo
membership tests and iteration are modelled as lists.
-/

namespace ScaP

/-! ## A small regular-expression engine

`language_guard._match_any` runs `re.search(p, t, flags=re.IGNORECASE)` for
each pattern `p` of a table.  The tables only use: literal characters,
character classes `[..]`, `.`, `\s`, `\b`, `(?:..|..)`, `?` and `*`.  We embed
exactly those constructs.  All table patterns are already lower-case and the
searched text is lower-cased first, so the IGNORECASE flag needs no extra
handling.  `.` matches anything except a newline (re.DOTALL is off), `\s` is
modelled by `Char.isWhitespace` (the searched labels only contain plain
spaces), and `\b` is a word boundary with word characters `[a-zA-Z0-9_]`
(the inputs relevant here are ASCII). -/

inductive Rx where
  | eps : Rx
  | lit : Char → Rx
  | cls : List Char → Rx
  | wild : Rx
  | wspace : Rx
  | wordB : Rx
  | cat : Rx → Rx → Rx
  | alt : Rx → Rx → Rx
  | star : Rx → Rx
  deriving Repr

/-- Literal string, i.e. the concatenation of its characters. -/
def rxStr (s : String) : Rx :=
  s.data.foldr (fun c r => Rx.cat (Rx.lit c) r) Rx.eps

/-- Concatenation of a list of regexes. -/
def rxSeq (l : List Rx) : Rx :=
  l.foldr Rx.cat Rx.eps

/-- `x?` -/
def rxOpt (r : Rx) : Rx := Rx.alt r Rx.eps

/-- `\s*` -/
def rxWS : Rx := Rx.star Rx.wspace

/-- `.*` -/
def rxDotStar : Rx := Rx.star Rx.wild

/-- Python `\w` for the ASCII fragment we need. -/
def isWordChar (c : Char) : Bool := c.isAlphanum || c == '_'

/-- Word boundary between the previous character (none at the start of the
text) and the rest of the text. -/
def isBoundary (p : Option Char) (s : List Char) : Bool :=
  let l := match p with | none => false | some c => isWordChar c
  let r := match s with | [] => false | c :: _ => isWordChar c
  l != r

/-- Continuation-passing matcher: does `r` match a prefix of `s` (with `p` the
character just before `s`, for `\b`) such that the continuation `k` accepts
the remainder?  `fuel` bounds the nesting depth of calls; every call either
descends into a strict subterm of `r` or (for `star`, guarded by a progress
check) into a strictly shorter text, so a fuel of
`(sizeOf r + 1) * (s.length + 1)` is always sufficient and the `0` case is
never reached by `rxSearch` below.  Structural recursion on the fuel keeps
the function kernel-reducible. -/
def rxAccept : Nat → Rx → Option Char → List Char → (Option Char → List Char → Bool) → Bool
  | 0, _, _, _, _ => false
  | _ + 1, Rx.eps, p, s, k => k p s
  | _ + 1, Rx.lit _, _, [], _ => false
  | _ + 1, Rx.lit c, _, x :: xs, k => x == c && k (some x) xs
  | _ + 1, Rx.cls _, _, [], _ => false
  | _ + 1, Rx.cls cs, _, x :: xs, k => cs.contains x && k (some x) xs
  | _ + 1, Rx.wild, _, [], _ => false
  | _ + 1, Rx.wild, _, x :: xs, k => !(x == '\n') && k (some x) xs
  | _ + 1, Rx.wspace, _, [], _ => false
  | _ + 1, Rx.wspace, _, x :: xs, k => x.isWhitespace && k (some x) xs
  | _ + 1, Rx.wordB, p, s, k => isBoundary p s && k p s
  | fuel + 1, Rx.cat a b, p, s, k =>
      rxAccept fuel a p s (fun p1 s1 => rxAccept fuel b p1 s1 k)
  | fuel + 1, Rx.alt a b, p, s, k => rxAccept fuel a p s k || rxAccept fuel b p s k
  | fuel + 1, Rx.star a, p, s, k =>
      k p s || rxAccept fuel a p s
        (fun p1 s1 => if s1.length < s.length then rxAccept fuel (Rx.star a) p1 s1 k else false)

/-- Size of a regex, used only to compute a sufficient fuel. -/
def rxSize : Rx → Nat
  | Rx.eps | Rx.lit _ | Rx.cls _ | Rx.wild | Rx.wspace | Rx.wordB => 1
  | Rx.cat a b => rxSize a + rxSize b + 1
  | Rx.alt a b => rxSize a + rxSize b + 1
  | Rx.star a => rxSize a + 1

/-- Can `r` match starting at some position of the text (`re.search`)? -/
def rxSearchAux (fuel : Nat) (r : Rx) : Option Char → List Char → Bool
  | p, [] => rxAccept fuel r p [] (fun _ _ => true)
  | p, c :: cs =>
    rxAccept fuel r p (c :: cs) (fun _ _ => true) || rxSearchAux fuel r (some c) cs

/-- `re.search(r, t)` as a boolean. -/
def rxSearch (r : Rx) (t : String) : Bool :=
  rxSearchAux ((rxSize r + 1) * (t.data.length + 1)) r none t.data

/-- Python `str.lower` (per-character; ASCII case folding, which covers every
upper-case letter the call sites can produce). -/
def pyLower (s : String) : String := String.mk (s.data.map Char.toLower)

/-- `language_guard._match_any(text, patterns)`:
`any(re.search(p, text.lower(), re.IGNORECASE) for p in patterns)`. -/
def matchAny (text : String) (patterns : List Rx) : Bool :=
  patterns.any (fun p => rxSearch p (pyLower text))

/-! ## The pattern tables of `language_guard.py`

Transcription helpers; each corresponds to one regex shape used in the
tables. -/

/-- `\bs\b` -/
def wbWord (s : String) : Rx := rxSeq [Rx.wordB, rxStr s, Rx.wordB]

/-- `s\b` -/
def endWord (s : String) : Rx := rxSeq [rxStr s, Rx.wordB]

/-- `s\s*dub` -/
def wsDub (s : String) : Rx := rxSeq [rxStr s, rxWS, rxStr "dub"]

/-- `a.*b` -/
def dots (a b : String) : Rx := rxSeq [rxStr a, rxDotStar, rxStr b]

/-- `a.*b.*c` -/
def dots3 (a b c : String) : Rx := rxSeq [rxStr a, rxDotStar, rxStr b, rxDotStar, rxStr c]

/-- `om[uü]` optionally followed by `\s*s` (the shapes `om[uü]` and
`om[uü]\s*de` / `om[uü]\s*ja`). -/
def omCls : Rx := rxSeq [rxStr "om", Rx.cls ['u', 'ü']]

/-- `LANG_MAP` from `language_guard.py`, in dict insertion order.  Each entry
is transcribed from the corresponding Python regex literal. -/
def LANG_MAP : List (String × List Rx) :=
  [ ("de",
     [ wbWord "de", wbWord "ger", rxStr "german", rxStr "deutsch",
       rxSeq [rxStr "dub", rxOpt (rxStr "bed"), rxWS, rxStr "de"],
       rxSeq [rxStr "ger", rxOpt (rxStr "man"), rxWS, rxStr "dub"],
       rxSeq [rxStr "deutsch", rxOpt (Rx.alt (rxStr "e") (rxStr "er")), rxWS, rxStr "dub"],
       wsDub "ger", wsDub "de", endWord "deu", rxStr "deutsch",
       rxStr "🇩🇪", dots "flag" "de", rxStr "deutschland",
       rxStr "gerdub", rxStr "ger-dub", rxStr "de-dub",
       rxSeq [Rx.wordB, rxStr "omu", Rx.wordB, rxDotStar, rxStr "de"],
       rxSeq [omCls, rxWS, rxStr "de"],
       dots "original" "untertiteln", rxStr "omut", rxStr "omu" ]),
    ("en",
     [ wbWord "en", rxSeq [rxStr "engl", rxOpt (Rx.alt (rxStr "ish") (rxStr "isch"))],
       rxStr "eng", wsDub "en", wsDub "english", wsDub "eng",
       rxStr "english", rxStr "englisch", rxStr "🇺🇸", dots "flag" "en", rxStr "usa",
       dots "english" "dub", dots "eng" "dub", dots "subbed" "en", dots "sub" "en" ]),
    ("ja",
     [ wbWord "ja", rxSeq [rxStr "jap", rxOpt (Rx.alt (rxStr "anese") (rxStr "anisch"))],
       rxStr "jp", rxStr "jpn", rxStr "japanese", rxStr "japanisch",
       rxStr "🇯🇵", dots "flag" "jp", rxStr "japan", rxStr "jap", rxStr "nihongo",
       endWord "jpn", dots "japanese" "dub", dots "jap" "dub",
       dots "subbed" "ja", dots "sub" "ja", dots "omu" "ja",
       rxSeq [omCls, rxWS, rxStr "ja"] ]),
    ("fr",
     [ wbWord "fr", rxStr "french", rxStr "französisch", endWord "fra",
       rxStr "français", rxStr "🇫🇷", dots "flag" "fr" ]),
    ("es",
     [ wbWord "es", rxStr "spanish", rxStr "spanisch", endWord "spa",
       rxStr "español", rxStr "🇪🇸", dots "flag" "es" ]),
    ("it",
     [ wbWord "it", rxStr "italian", rxStr "italienisch", endWord "ita",
       rxStr "italiano", rxStr "🇮🇹", dots "flag" "it" ]),
    ("pt",
     [ wbWord "pt", rxStr "portuguese", rxStr "portugiesisch", endWord "por",
       rxStr "português", rxStr "🇵🇹", dots "flag" "pt" ]),
    ("ru",
     [ wbWord "ru", rxStr "russian", rxStr "russisch", endWord "rus",
       rxStr "русский", rxStr "🇷🇺", dots "flag" "ru" ]),
    ("ko",
     [ wbWord "ko", rxStr "korean", rxStr "koreanisch", endWord "kor",
       rxStr "한국어", rxStr "🇰🇷", dots "flag" "ko" ]),
    ("zh",
     [ wbWord "zh", rxStr "chinese", rxStr "chinesisch", endWord "chi",
       rxStr "中文", rxStr "🇨🇳", dots "flag" "zh" ]) ]

/-- `DUB_PATTERNS` from `language_guard.py`, in dict insertion order. -/
def DUB_PATTERNS : List (String × List Rx) :=
  [ ("de",
     [ wsDub "german", wsDub "ger", wsDub "de",
       rxSeq [rxStr "deutsch", rxOpt (Rx.alt (rxStr "e") (rxStr "er")), rxWS, rxStr "dub"],
       rxStr "gerdub", rxStr "ger-dub", rxStr "de-dub",
       dots "deutsch" "dub", dots "german" "dub",
       dots "dubbed" "german", dots "dubbed" "deutsch", dots "dub" "ger", dots "dub" "de",
       dots "🇩🇪" "dub", dots3 "flag" "de" "dub" ]),
    ("en",
     [ wsDub "english", wsDub "eng", wsDub "en", dots "english" "dub", dots "eng" "dub",
       dots "dubbed" "english", dots "dubbed" "eng", dots "dub" "en", dots "dub" "english",
       dots "🇺🇸" "dub", dots3 "flag" "en" "dub" ]),
    ("ja",
     [ wsDub "japanese", wsDub "jap", wsDub "ja", dots "japanese" "dub", dots "jap" "dub",
       dots "dubbed" "japanese", dots "dubbed" "jap", dots "dub" "ja", dots "dub" "japanese",
       dots "🇯🇵" "dub", dots3 "flag" "jp" "dub" ]),
    ("fr", [ wsDub "french", wsDub "fra", wsDub "fr", dots "french" "dub", dots "dub" "french" ]),
    ("es", [ wsDub "spanish", wsDub "spa", wsDub "es", dots "spanish" "dub", dots "dub" "spanish" ]),
    ("it", [ wsDub "italian", wsDub "ita", wsDub "it", dots "italian" "dub", dots "dub" "italian" ]),
    ("pt", [ wsDub "portuguese", wsDub "por", wsDub "pt", dots "portuguese" "dub", dots "dub" "portuguese" ]),
    ("ru", [ wsDub "russian", wsDub "rus", wsDub "ru", dots "russian" "dub", dots "dub" "russian" ]),
    ("ko", [ wsDub "korean", wsDub "kor", wsDub "ko", dots "korean" "dub", dots "dub" "korean" ]),
    ("zh", [ wsDub "chinese", wsDub "chi", wsDub "zh", dots "chinese" "dub", dots "dub" "chinese" ]) ]

/-- `SPECIAL_PATTERNS["omu"]` -/
def SPECIAL_omu : List Rx :=
  [ rxStr "omu", omCls, dots "original" "untertiteln", dots "original" "subtitles" ]

/-- `SPECIAL_PATTERNS["dubbed"]` -/
def SPECIAL_dubbed : List Rx :=
  [ rxStr "dubbed", rxStr "dub", rxStr "vertont", rxStr "synchronisiert" ]

/-- `SPECIAL_PATTERNS["subbed"]` -/
def SPECIAL_subbed : List Rx :=
  [ rxStr "subbed", rxStr "sub", rxStr "untertitelt", dots "mit" "untertiteln" ]

/-- `SPECIAL_PATTERNS["original"]` -/
def SPECIAL_original : List Rx :=
  [ rxStr "original", rxStr "orig", rxStr "omu", omCls, dots "ohne" "dub" ]

/-- The Austrian-variant patterns of `guess_audio_and_dub` (case 5). -/
def REGIONAL_at : List Rx := [ rxStr "österreich", rxStr "austrian", endWord "at" ]

/-- The Swiss-variant patterns of `guess_audio_and_dub` (case 5). -/
def REGIONAL_ch : List Rx := [ rxStr "schweiz", rxStr "swiss", endWord "ch" ]

/-! ## `guess_audio_and_dub` -/

/-- Python `str.strip()`. -/
def pyStrip (s : String) : String :=
  String.mk (((s.data.dropWhile Char.isWhitespace).reverse.dropWhile Char.isWhitespace).reverse)

/-- The characters removed by the clean-up substitution
`re.sub(r'[\[\]{}()\'"]', ' ', label_l)`. -/
def cleanupChars : List Char := ['[', ']', '\x7b', '\x7d', '(', ')', '\x27', '"']

/-- Collapse every maximal run of whitespace to a single space
(`re.sub(r'\s+', ' ', label_l)`); the flag records whether the previous
character was part of a whitespace run. -/
def collapseWsAux : List Char → Bool → List Char
  | [], _ => []
  | c :: cs, prevWs =>
    if c.isWhitespace then
      if prevWs then collapseWsAux cs true else ' ' :: collapseWsAux cs true
    else c :: collapseWsAux cs false

/-- The label normalisation at the top of `guess_audio_and_dub`:
lower-case, strip, drop brackets and quotes, collapse whitespace. -/
def cleanLabel (label : String) : String :=
  let l1 := pyStrip (pyLower label)
  let l2 := l1.data.map (fun c => if cleanupChars.contains c then ' ' else c)
  String.mk (collapseWsAux l2 false)

/-- Is `sub` a contiguous sublist of `l`? -/
def listIsInfix (sub : List Char) : List Char → Bool
  | [] => sub.isEmpty
  | c :: cs => sub.isPrefixOf (c :: cs) || listIsInfix sub cs

/-- Python `sub in t` for strings. -/
def containsSub (t sub : String) : Bool := listIsInfix sub.data t.data

/-- First table entry (in insertion order) one of whose patterns matches:
the `for lang, pats in TABLE.items(): if _match_any(...): break` loops. -/
def firstLangMatch (t : String) (table : List (String × List Rx)) : Option String :=
  (table.find? (fun e => matchAny t e.2)).map (fun e => e.1)

/-- `language_guard.guess_audio_and_dub`.  The Python guard
`if not label or not isinstance(label, str)` is the empty-string test here.
Cases 2 and 4 of the source are no-ops (every branch is `pass`) and are
therefore not reflected in the result. -/
def guess_audio_and_dub (label : String) : Option String × Option String :=
  if label = "" then (none, none)
  else
    let label_l := cleanLabel label
    let special_omu := matchAny label_l SPECIAL_omu
    let _special_dubbed := matchAny label_l SPECIAL_dubbed
    let _special_subbed := matchAny label_l SPECIAL_subbed
    let _special_original := matchAny label_l SPECIAL_original
    let dub_lang := firstLangMatch label_l DUB_PATTERNS
    let audio_lang := firstLangMatch label_l LANG_MAP
    let audio_lang := if special_omu && dub_lang == some "de" then some "ja" else audio_lang
    let audio_lang :=
      if dub_lang.isSome && audio_lang.isNone then
        if containsSub label_l "anime" || containsSub label_l "japan" ||
            containsSub label_l "manga" then some "ja"
        else if containsSub label_l "cartoon" || containsSub label_l "animation" then some "en"
        else audio_lang
      else audio_lang
    let audio_lang :=
      if audio_lang == some "de" then
        if matchAny label_l REGIONAL_at then some "de-at"
        else if matchAny label_l REGIONAL_ch then some "de-ch"
        else audio_lang
      else audio_lang
    (audio_lang, dub_lang)

/-! ## Episode variants and priority-based selection

`models.EpisodeVariant`, restricted to the fields the selection functions
read (`url` doubles as the identity of a variant; `season`, `episode`,
`title`, `source`, `subs` and `extra` play no role in `pick_best`,
`sort_by_preference` or ranking).  A priority list is what
`_get_lang_priority()` returns: `(audio_lang, dub_lang)` pairs where either
component may be `None`. -/

structure EpisodeVariant where
  url : String
  audio_lang : Option String
  dub_lang : Option String
  quality : Option String
  deriving Repr, DecidableEq

/-- A language priority list: `(audio_pref, dub_pref)` pairs. -/
abbrev LangPrio := List (Option String × Option String)

/-- `DEFAULT_LANG_PRIORITY` from `language_guard.py` (also the fallback of
`config_manager.get_language_priority`). -/
def DEFAULT_LANG_PRIORITY : LangPrio :=
  [ (some "de", none), (some "en", some "de"), (some "en", none),
    (some "ja", some "de"), (some "ja", some "en"), (some "ja", none) ]

/-- The test of the exact pass:
`v.audio_lang == a_pref and v.dub_lang == d_pref`. -/
def exactPair (v : EpisodeVariant) (p : Option String × Option String) : Bool :=
  v.audio_lang == p.1 && v.dub_lang == p.2

/-- The test of the tolerance pass:
`d_pref is None and v.audio_lang == a_pref`. -/
def wildAudio (v : EpisodeVariant) (p : Option String × Option String) : Bool :=
  p.2 == none && v.audio_lang == p.1

/-- The exact pass of `pick_best`: `for (a_pref, d_pref) in prio: for v in
vs: if exact match: return v`. -/
def pickBestExact (prio : LangPrio) (vs : List EpisodeVariant) : Option EpisodeVariant :=
  prio.findSome? (fun p => vs.find? (fun v => exactPair v p))

/-- The tolerance pass of `pick_best`: for each priority entry whose dub
component is `None`, the first variant with a matching `audio_lang`. -/
def pickBestWild (prio : LangPrio) (vs : List EpisodeVariant) : Option EpisodeVariant :=
  prio.findSome?
    (fun p => if p.2 = none then vs.find? (fun v => v.audio_lang == p.1) else none)

/-- `language_guard.pick_best`.  In the source the priority list comes from
`_get_lang_priority()`; here it is passed explicitly. -/
def pick_best (prio : LangPrio) (vs : List EpisodeVariant) : Option EpisodeVariant :=
  if prio = [] ∨ vs = [] then vs.head?
  else
    match pickBestExact prio vs with
    | some v => some v
    | none =>
      match pickBestWild prio vs with
      | some v => some v
      | none => vs.head?

/-- Index of the first element satisfying `p` (the
`for idx, … in enumerate(…): return idx` loops of `rank`). -/
def firstMatchIdx (p : α → Bool) : List α → Option Nat
  | [] => none
  | x :: xs => if p x then some 0 else (firstMatchIdx p xs).map (fun i => i + 1)

/-- The rank key of `sort_by_preference`: index of the first exact
`(audio, dub)` match, else `100 +` the index of the first wildcard-dub
audio match, else the sentinel `999`. -/
def rank (prio : LangPrio) (v : EpisodeVariant) : Nat :=
  match firstMatchIdx (fun p => exactPair v p) prio with
  | some idx => idx
  | none =>
    match firstMatchIdx (fun p => wildAudio v p) prio with
    | some idx => idx + 100
    | none => 999

/-- The earliest element of minimal key: the element Python's stable
`sorted(…, key=rank)` places first. -/
def firstMinBy (f : α → Nat) : List α → Option α
  | [] => none
  | x :: xs =>
    match firstMinBy f xs with
    | none => some x
    | some m => if f x ≤ f m then some x else some m

/-- `language_guard.sort_by_preference`: Python's `sorted(variants, key=rank)`
is the stable sort by the rank key, which is exactly
`List.insertionSort` with the non-strict comparison on ranks. -/
def sort_by_preference (prio : LangPrio) (vs : List EpisodeVariant) : List EpisodeVariant :=
  vs.insertionSort (fun a b => rank prio a ≤ rank prio b)

/-! ## The media language verifier

`ffprobe` output is modelled by the fields `verify_language` and its helpers
actually read: a list of streams, each with a codec type, the two places a
language tag can live (`tags["language"]` and `s["TAG:language"]`), and a
stream index.  The external tools are oracles: the probe outcome, the ffmpeg
return code, the success of the final rename of the remux temp file, and the
whisper language guesses are inputs. -/

structure AVStream where
  codec_type : String
  tags_language : Option String
  tag_language : Option String
  index : Nat
  deriving Repr, DecidableEq

structure ProbeMeta where
  streams : List AVStream
  deriving Repr, DecidableEq

/-- Python truthiness for an optional string: `None` and `""` are falsy. -/
def strTruthy : Option String → Option String
  | some s => if s = "" then none else some s
  | none => none

/-- `(tags.get("language") or s.get("TAG:language") or "").lower()` -/
def streamLang (s : AVStream) : String :=
  pyLower (((strTruthy s.tags_language).orElse (fun _ => strTruthy s.tag_language)).getD "")

/-- `list_streams(meta, kind)` -/
def list_streams (meta : ProbeMeta) (kind : String) : List AVStream :=
  meta.streams.filter (fun s => s.codec_type == kind)

/-- `audio_lang_indices(meta, desired)` -/
def audio_lang_indices (meta : ProbeMeta) (desired : List String) : List Nat :=
  ((list_streams meta "audio").filter (fun s => desired.contains (streamLang s))).map
    (fun s => s.index)

/-- `has_subtitles_in_lang(meta, desired)` -/
def has_subtitles_in_lang (meta : ProbeMeta) (desired : List String) : Bool :=
  (list_streams meta "subtitle").any (fun s => desired.contains (streamLang s))

/-- Split a character list on a separator character (used to model the path
manipulations, which in the source go through `pathlib`). -/
def splitOnChar (c : Char) : List Char → List Char → List (List Char)
  | [], acc => [acc.reverse]
  | x :: xs, acc =>
    if x == c then acc.reverse :: splitOnChar c xs [] else splitOnChar c xs (x :: acc)

/-- Join character lists with a separator character. -/
def joinWithChar (c : Char) : List (List Char) → List Char
  | [] => []
  | [x] => x
  | x :: xs => x ++ c :: joinWithChar c xs

/-- The stem of a file name: everything before the last dot, except that a
name without a dot, or with only a leading dot, has no suffix to strip
(`pathlib.PurePath.stem` for ordinary file names). -/
def nameStem (name : List Char) : List Char :=
  match name.reverse.findIdx? (fun c => c == '.') with
  | none => name
  | some k =>
    let dotPos := name.length - 1 - k
    if dotPos = 0 then name else name.take dotPos

/-- `pathlib.Path(p).with_suffix(sfx)` for ordinary file paths: replace the
final extension of the last path component by `sfx`. -/
def pyWithSuffix (p : String) (sfx : String) : String :=
  let parts := splitOnChar '/' p.data []
  let name := parts.getLastD []
  String.mk (joinWithChar '/' (parts.dropLast ++ [nameStem name ++ sfx.data]))

/-- The suffix token chosen by `remux_to_de`: a truthy `preferred_suffix`
wins (lower-cased); otherwise the first two-letter alphabetic tag of
`desired`, else its first element; `'lang'` if everything else is falsy.
`desired` is a Python set iterated with `list(desired)`; the embedding keeps
the caller's order. -/
def remuxSuffixToken (preferred : Option String) (desired : List String) : String :=
  match strTruthy preferred with
  | some s => pyLower s
  | none =>
    match desired with
    | [] => "lang"
    | _ =>
      let pick :=
        match desired.find? (fun tag => tag.length = 2 && tag.data.all Char.isAlpha) with
        | some t => t
        | none => desired.headD ""
      if pick = "" then "lang" else pick

/-- The ffmpeg invocation built by `remux_to_de`:
`[ffmpeg, '-v', 'error', '-i', video_in, '-map', '0:v:0', '-map', f"0:{idx}",
'-c', 'copy', temp_out, '-y']` — a stream copy of the first video track plus
the single audio track `idx`. -/
def remux_cmd (ffmpeg_bin video_in : String) (idx : Nat) (temp_out : String) : List String :=
  [ffmpeg_bin, "-v", "error", "-i", video_in, "-map", "0:v:0",
   "-map", "0:" ++ toString idx, "-c", "copy", temp_out, "-y"]

/-- Oracle bits for one `remux_to_de` run: the ffmpeg return code and the
success of the `temp_out.replace(out_path)` rename. -/
structure RemuxEnv where
  ffmpeg_ok : Bool
  replace_ok : Bool
  deriving Repr, DecidableEq

/-- `language_guard.remux_to_de` (with `meta` already probed, as in every
call from `verify_language`).  Returns the output path on success. -/
def remux_to_de (env : RemuxEnv) (video_in : String) (meta : ProbeMeta)
    (desired : List String) (preferred : Option String) : Option String :=
  match audio_lang_indices meta desired with
  | [] => none
  | _ :: _ =>
    let token := remuxSuffixToken preferred desired
    let out_path := pyWithSuffix video_in ("." ++ token ++ ".mkv")
    if env.ffmpeg_ok then
      if env.replace_ok then some out_path else none
    else none

/-- The module-level settings `verify_language` reads
(`DESIRED_LANG_TAGS`, `WHISPER_ACCEPT_639_1`, `REQUIRE_DUB`,
`REMUX_TO_DE_IF_PRESENT`, `VERIFY_WITH_WHISPER`). -/
structure LGConfig where
  desired_lang_tags : List String
  whisper_accept : List String
  require_dub : Bool
  remux_to_de_if_present : Bool
  verify_with_whisper : Bool
  deriving Repr, DecidableEq

/-- Oracle inputs for one `verify_language` run: the probe outcome, the
remux oracle (at most one remux is executed per run, and both call sites
pass the same arguments), and the whisper guesses on the original and on the
remuxed file (`content_language_guess` returns `""` on failure). -/
structure VerifyEnv where
  probe : Except String ProbeMeta
  remux : RemuxEnv
  whisper_lang : String
  whisper_lang_after_remux : String
  deriving Repr

/-- The `prefer_sequence` computed at the top of `verify_language`. -/
def preferSequence (cfg : LGConfig) (prefer_tags : Option (List String)) : List String :=
  match prefer_tags with
  | none => cfg.desired_lang_tags
  | some l => l.map pyLower

/-- `desired_tags = set(prefer_sequence) if prefer_sequence else
DESIRED_LANG_TAGS` -/
def desiredTags (cfg : LGConfig) (prefer_tags : Option (List String)) : List String :=
  let seq := preferSequence cfg prefer_tags
  if seq ≠ [] then seq else cfg.desired_lang_tags

/-- The `whisper_sequence` computed at the top of `verify_language`. -/
def whisperSequence (cfg : LGConfig) (accept : Option (List String)) : List String :=
  match accept with
  | none => cfg.whisper_accept
  | some l => l.map pyLower

/-- `language_guard.verify_language`, returning
`(ok, detail, fixed_path_or_none)`.  `sample_seconds` only parameterises the
whisper oracle and is therefore not an explicit argument here. -/
def verify_language (cfg : LGConfig) (env : VerifyEnv) (video_path : String)
    (prefer_tags : Option (List String)) (require_dub : Option Bool)
    (remux : Option Bool) (accept_langs : Option (List String))
    (reject_subs_only : Bool) : Bool × String × Option String :=
  let desired := desiredTags cfg prefer_tags
  let require_dub_setting := require_dub.getD cfg.require_dub
  let remux_setting := remux.getD cfg.remux_to_de_if_present
  let whisper_seq := whisperSequence cfg accept_langs
  let allowed_whisper := whisper_seq
  let preferred_suffix := whisper_seq.head?
  match env.probe with
  | Except.error e => (false, "ffprobe-error: " ++ e, none)
  | Except.ok meta =>
    let audio_idxs := audio_lang_indices meta desired
    if audio_idxs ≠ [] then
      if remux_setting then
        match remux_to_de env.remux video_path meta desired preferred_suffix with
        | some out => (true, "tag-match-remuxed", some out)
        | none => (true, "tag-match", none)
      else (true, "tag-match", none)
    else if reject_subs_only && has_subtitles_in_lang meta desired then
      (false, "subs-only", none)
    else if require_dub_setting then
      (false, "dub-required", none)
    else
      let lang_lower := pyLower env.whisper_lang
      if cfg.verify_with_whisper && lang_lower ≠ "" &&
          allowed_whisper.contains lang_lower then
        (true, "content-match:" ++ lang_lower, none)
      else
        let mismatch_detail :=
          if cfg.verify_with_whisper then
            if lang_lower ≠ "" then lang_lower else "unknown"
          else "whisper-disabled"
        if cfg.verify_with_whisper && remux_setting then
          match remux_to_de env.remux video_path meta desired preferred_suffix with
          | some out =>
            let lang2_lower := pyLower env.whisper_lang_after_remux
            if lang2_lower ≠ "" && allowed_whisper.contains lang2_lower then
              (true, "accepted-after-remux", some out)
            else (false, "mismatch:" ++ mismatch_detail, none)
          | none => (false, "mismatch:" ++ mismatch_detail, none)
        else (false, "mismatch:" ++ mismatch_detail, none)

/-! ## `scraper.DownloadStatus`

The record and its methods, exactly as in the source.  Every method runs
under `self._lock`; the shallow embedding is sequential, so each method is a
pure state transformer and atomicity is implicit. -/

structure DownloadStatus where
  is_downloading : Bool
  current_title : String
  progress : Int
  total_episodes : Int
  current_episode : Int
  status_message : String
  cancel_requested : Bool
  deriving Repr, DecidableEq

/-- `DownloadStatus.__init__` -/
def dsInit : DownloadStatus :=
  { is_downloading := false, current_title := "", progress := 0, total_episodes := 0,
    current_episode := 0, status_message := "", cancel_requested := false }

/-- `DownloadStatus.update`: only the explicitly supplied fields are
overwritten (`""` for strings and `None` for the counters mean
"not supplied", as in the Python defaults). -/
def dsUpdate (st : DownloadStatus) (title : String) (progress : Option Int)
    (current_episode : Option Int) (total_episodes : Option Int)
    (status_message : String) : DownloadStatus :=
  let st := if title ≠ "" then { st with current_title := title } else st
  let st := match progress with
    | some p => { st with progress := p }
    | none => st
  let st := match current_episode with
    | some c => { st with current_episode := c }
    | none => st
  let st := match total_episodes with
    | some t => { st with total_episodes := t }
    | none => st
  if status_message ≠ "" then { st with status_message := status_message } else st

/-- `DownloadStatus.start_download` -/
def dsStartDownload (st : DownloadStatus) : DownloadStatus :=
  { st with is_downloading := true, progress := 0, current_episode := 0,
            status_message := "Download gestartet" }

/-- `DownloadStatus.finish_download` -/
def dsFinishDownload (st : DownloadStatus) : DownloadStatus :=
  { st with is_downloading := false, progress := 100, cancel_requested := false,
            status_message := "Download abgeschlossen" }

/-- `DownloadStatus.request_cancel`: returns the Python return value and the
new state. -/
def dsRequestCancel (st : DownloadStatus) : Bool × DownloadStatus :=
  if st.is_downloading then
    (true, { st with cancel_requested := true, status_message := "Abbruch angefordert..." })
  else (false, st)

/-- One call against the status record, for reasoning about arbitrary
sequences of operations. -/
inductive DsOp where
  | update (title : String) (progress current_episode total_episodes : Option Int)
      (status_message : String)
  | startDl
  | finishDl
  | requestCancel

/-- Apply one operation. -/
def dsApply (st : DownloadStatus) : DsOp → DownloadStatus
  | DsOp.update t p c tot m => dsUpdate st t p c tot m
  | DsOp.startDl => dsStartDownload st
  | DsOp.finishDl => dsFinishDownload st
  | DsOp.requestCancel => (dsRequestCancel st).2

/-- Run a sequence of operations from the freshly constructed record. -/
def dsRunOps (ops : List DsOp) : DownloadStatus :=
  ops.foldl dsApply dsInit

/-! ## `StreamScraper.start_download`

The batch entry point.  `process_series` either returns or raises; on an
exception the handler updates the status message and calls
`reset_session()`, which (among session bookkeeping) replaces
`self.download_status` by a fresh `DownloadStatus()` when it succeeds and
leaves the old record in place when it fails; the exception is re-raised and
the `finally` block calls `finish_download()` on the current record either
way.  The result carries the exception (if any), the final status record,
and whether `process_series` was invoked at all. -/

inductive PSOutcome where
  | ok
  | raises (msg : String)

/-- `StreamScraper.start_download(url)` as a transformer of the status
record. -/
def scraper_start_download (st : DownloadStatus) (ps : PSOutcome)
    (reset_session_ok : Bool) : Except String Unit × DownloadStatus × Bool :=
  if st.is_downloading then
    (Except.error "Es läuft bereits ein Download!", st, false)
  else
    let st1 := dsStartDownload st
    let st2 := dsUpdate st1 "" none none none "Starte Download..."
    match ps with
    | PSOutcome.ok => (Except.ok (), dsFinishDownload st2, true)
    | PSOutcome.raises m =>
      let st3 := dsUpdate st2 "" none none none ("Fehler: " ++ m)
      let st4 := if reset_session_ok then dsInit else st3
      (Except.error m, dsFinishDownload st4, true)

/-! ## `RealDebrid.unrestrict_link`

One API attempt either yields a verified direct URL (HTTP 200, a download
URL in the payload, and a successful HEAD check), hits the definitive
`unavailable_file` error (return `None` immediately), or fails transiently
(503, missing/unreachable download URL, other API errors, connection
errors: `retries += 1` and back off).  The function returns the result
together with the list of back-off delays it slept, in seconds. -/

inductive RdAttempt where
  | success (url : String)
  | unavailableFile
  | transient

/-- The retry loop of `unrestrict_link`; `retries` is the loop counter and
the fuel is the number of remaining iterations (`max_retries - retries`), so
the `0` case is exactly the exit of the `while`. -/
def unrestrictGo (oracle : Nat → RdAttempt) (max_retries : Nat) :
    Nat → Nat → Option String × List Nat
  | _, 0 => (none, [])
  | r, fuel + 1 =>
    if r < max_retries then
      let waits := if r > 0 then [10 * 2 ^ (r - 1)] else []
      match oracle r with
      | RdAttempt.success u => (some u, waits)
      | RdAttempt.unavailableFile => (none, waits)
      | RdAttempt.transient =>
        let rest := unrestrictGo oracle max_retries (r + 1) fuel
        (rest.1, waits ++ rest.2)
    else (none, [])

/-- `RealDebrid.unrestrict_link(link, max_retries)`. -/
def unrestrict_link (oracle : Nat → RdAttempt) (max_retries : Nat) :
    Option String × List Nat :=
  unrestrictGo oracle max_retries 0 max_retries

/-! ## `StreamScraper._download_video`

The retry/demotion loop.  Oracles: the per-call outcome of
`unrestrict_link`, the per-call outcome of the yt-dlp transfer (success with
the language guard verdict, the definitive "Video unavailable" error, or any
other exception), the cooperative cancel flag polled at the top of each
iteration, and the VOE fallback downloader with its own language check.  The
event trace records, for each loop iteration, the value of `retries` on
entry, every demotion (with the counter before and after the reset
`retries = 0`), and every yt-dlp attempt with the `retries` value it ran
under. -/

inductive RdStep where
  | resolved (direct_url : String)
  | failed

inductive YdlStep where
  | okVerified
  | okRejected
  | unavailable
  | transientError

structure DvEnv where
  has_rd : Bool
  rd_priority : Bool
  rd : Nat → RdStep
  ydl : Nat → YdlStep
  cancel : Nat → Bool
  voe_fallback_ok : Bool
  voe_verify_ok : Bool

inductive DvEvent where
  | iter (retries : Nat)
  | demote (retries_before retries_after : Nat)
  | ydlAttempt (call retries : Nat)
  deriving Repr, DecidableEq

structure DvState where
  url : String
  retries : Nat
  rd_failed : Bool
  rd_calls : Nat
  ydl_calls : Nat
  iters : Nat

/-- Python `str.startswith`. -/
def pyStartswith (u pre : String) : Bool := pre.data.isPrefixOf u.data

/-- Python `str.endswith`. -/
def pyEndswith (u post : String) : Bool := post.data.isSuffixOf u.data

/-- `urlparse(url).netloc` for the URL shapes the scraper handles. -/
def urlNetloc (u : String) : String :=
  match (splitOnChar ':' u.data []).tail with
  | after :: _ =>
    match after.drop 2 with
    | rest => String.mk ((splitOnChar '/' rest []).headD [])
  | [] => ""

/-- `parsed_url.netloc.endswith('voe.sx')` -/
def isVoeUrl (u : String) : Bool := pyEndswith (urlNetloc u) "voe.sx"

/-- The VOE fallback: `_try_voe_fallback` either fails (fall through) or
succeeds, in which case `_verify_german_audio` decides the return value. -/
def dvVoeFallback (env : DvEnv) : Option Bool :=
  if env.voe_fallback_ok then some env.voe_verify_ok else none

/-- The tail of one loop iteration after the optional Real-Debrid step: the
yt-dlp transfer, its language-guard check, and the exception handler with
its final VOE fallback.  `recurse` continues the loop with the next
iteration. -/
def dvYdl (env : DvEnv) (max_retries : Nat) (is_voe : Bool) (st : DvState)
    (evIter : DvEvent) (recurse : DvState → Option Bool × List DvEvent) :
    Option Bool × List DvEvent :=
  let evY := DvEvent.ydlAttempt st.ydl_calls st.retries
  match env.ydl st.ydl_calls with
  | YdlStep.okVerified => (some true, [evIter, evY])
  | YdlStep.okRejected => (some false, [evIter, evY])
  | YdlStep.unavailable => (some false, [evIter, evY])
  | YdlStep.transientError =>
    let r2 := st.retries + 1
    if r2 ≥ max_retries then
      match (if is_voe then dvVoeFallback env else none) with
      | some b => (some b, [evIter, evY])
      | none => (some false, [evIter, evY])
    else
      let rest := recurse { st with retries := r2, ydl_calls := st.ydl_calls + 1,
                                    iters := st.iters + 1 }
      (rest.1, evIter :: evY :: rest.2)

/-- The `while retries < max_retries` loop of `_download_video`.  The fuel
only bounds the iteration count; `dvRun` supplies enough for every possible
run (at most one demotion plus `max_retries` exception retries). -/
def dvGo (env : DvEnv) (max_retries : Nat) (is_voe : Bool) :
    DvState → Nat → Option Bool × List DvEvent
  | _, 0 => (none, [])
  | st, fuel + 1 =>
    if st.retries < max_retries then
      let evIter := DvEvent.iter st.retries
      if env.cancel st.iters then (some false, [evIter])
      else
        let rdCond := env.has_rd && !st.rd_failed &&
          (pyStartswith st.url "https://voe.sx/" ||
           pyStartswith st.url "https://maxfinishseveral.com/" || env.rd_priority)
        if rdCond then
          match env.rd st.rd_calls with
          | RdStep.resolved u =>
            dvYdl env max_retries is_voe
              { st with url := u, rd_calls := st.rd_calls + 1 } evIter
              (fun st2 => dvGo env max_retries is_voe st2 fuel)
          | RdStep.failed =>
            let evD := DvEvent.demote st.retries 0
            let st2 := { st with rd_failed := true, retries := 0,
                                 rd_calls := st.rd_calls + 1 }
            match (if is_voe then dvVoeFallback env else none) with
            | some b => (some b, [evIter, evD])
            | none =>
              let rest := dvGo env max_retries is_voe { st2 with iters := st.iters + 1 } fuel
              (rest.1, evIter :: evD :: rest.2)
        else
          dvYdl env max_retries is_voe st evIter
            (fun st2 => dvGo env max_retries is_voe st2 fuel)
    else (some false, [])

/-- `StreamScraper._download_video(task, max_retries)` for a string URL,
returning the boolean result (`none` only on fuel exhaustion, which the
chosen fuel rules out) and the event trace. -/
def dvRun (env : DvEnv) (max_retries : Nat) (url : String) :
    Option Bool × List DvEvent :=
  dvGo env max_retries (isVoeUrl url)
    { url := url, retries := 0, rd_failed := false, rd_calls := 0, ydl_calls := 0, iters := 0 }
    (2 * max_retries + 2)

/-! ## Concrete fixtures used by witnesses and counterexamples -/

/-- A variant tagged `fr`, as in the repository test
`test_pick_best_no_match_returns_none`. -/
def vFr : EpisodeVariant := ⟨"https://example.com/fr", some "fr", none, none⟩

/-- A variant tagged `es`, as in the repository test
`test_pick_best_no_match_returns_none`. -/
def vEs : EpisodeVariant := ⟨"https://example.com/es", some "es", none, none⟩

/-- A variant tagged `ja`. -/
def vJa : EpisodeVariant := ⟨"https://example.com/ja", some "ja", none, none⟩

/-- A variant tagged `de`. -/
def vDe : EpisodeVariant := ⟨"https://example.com/de", some "de", none, none⟩

/-- The default verifier configuration
(`language.prefer = ["de","deu","ger"]`, whisper accepts `de`, `require_dub`
off, remux on, whisper on). -/
def cfg0 : LGConfig := ⟨["de", "deu", "ger"], ["de"], false, true, true⟩

/-- Probe result of a file whose only audio track is tagged `de`. -/
def metaDeAudio : ProbeMeta :=
  ⟨[⟨"video", none, none, 0⟩, ⟨"audio", some "de", none, 1⟩]⟩

/-- Probe result of a file with only a `de` subtitle track and no tagged
audio track. -/
def metaDeSub : ProbeMeta :=
  ⟨[⟨"video", none, none, 0⟩, ⟨"subtitle", some "de", none, 1⟩]⟩

/-- Oracles: probe succeeds with `metaDeAudio`, ffmpeg and the rename
succeed, whisper never answers. -/
def envTag : VerifyEnv := ⟨Except.ok metaDeAudio, ⟨true, true⟩, "", ""⟩

/-- Oracles: probe succeeds with `metaDeSub`, remux would succeed, whisper
never answers. -/
def envSubs : VerifyEnv := ⟨Except.ok metaDeSub, ⟨true, true⟩, "", ""⟩

/-- Oracles: the probe itself fails. -/
def envProbeFail : VerifyEnv := ⟨Except.error "boom", ⟨true, true⟩, "", ""⟩

/-- Download-loop oracles for the demotion counterexample: Real-Debrid is
available and prioritised, its first resolution succeeds, every later one
fails; every yt-dlp attempt raises a transient error; no cancellation; the
VOE fallback downloader fails. -/
def cexDvEnv : DvEnv :=
  ⟨true, true,
   fun n => if n = 0 then RdStep.resolved "https://direct/1" else RdStep.failed,
   fun _ => YdlStep.transientError,
   fun _ => false, false, false⟩

/-- A 102-entry priority list: a wildcard-dub `de` entry first, 100 inert
pad entries, and an exact `(ja, de)` entry at index 101. -/
def cexPrio : LangPrio :=
  (some "de", none) :: (List.replicate 100 (some "xx", some "xx") ++ [(some "ja", some "de")])

/-- A variant matching the `(ja, de)` entry of `cexPrio` exactly. -/
def cexVarA : EpisodeVariant := ⟨"A", some "ja", some "de", none⟩

/-- A variant whose audio matches the wildcard `de` entry of `cexPrio` but
whose dub tag rules out every exact match. -/
def cexVarB : EpisodeVariant := ⟨"B", some "de", some "en", none⟩

/-! ## Claims -/

/-- C1: the two matching passes of `pick_best` behave as claimed, but when
no priority entry matches any variant the code does not return none — it
unconditionally falls back to the first variant in input order, and no
parameter or configuration can disable that fallback.  The repository's own
test `test_pick_best_no_match_returns_none` asserts that this very input
yields none, so the code contradicts its own test suite: evaluating the
embedded `pick_best` on the test's variants (`fr` and `es`, none of which
matches any entry of the default priority list, exactly or by wildcard)
returns the first variant. -/
theorem claim_C1_eval :
    pick_best DEFAULT_LANG_PRIORITY [vFr, vEs] = some vFr ∧
    (∀ p ∈ DEFAULT_LANG_PRIORITY, ∀ v ∈ [vFr, vEs],
      exactPair v p = false ∧ wildAudio v p = false) := by
  constructor
  · rfl
  · decide

/-- C2: the claimed round trips of `guess_audio_and_dub`.  The code maps
"Japanese German Dub" to `("de", "de")` rather than `("ja", "de")`, because
the loose pattern `r"german"` sits in `LANG_MAP["de"]` and fires before any
Japanese pattern is consulted, and likewise maps "German Dub 1080p" to
`("de", "de")` instead of `(None, "de")`; only "English Original" gives the
claimed `("en", None)`.  The repository's own unit test
`test_guess_audio_and_dub` asserts the claimed values, so this is a code
bug, witnessed here by evaluating the embedded function on the three
labels. -/
theorem claim_C2_eval :
    guess_audio_and_dub "Japanese German Dub" = (some "de", some "de") ∧
    guess_audio_and_dub "German Dub 1080p" = (some "de", some "de") ∧
    guess_audio_and_dub "English Original" = (some "en", none) := by
  refine ⟨?_, ?_, ?_⟩ <;> decide

/-- Helper: a reason built by prefixing "mismatch:" never equals
"subs-only". -/
theorem mismatch_ne_subs_only (d : String) : "mismatch:" ++ d ≠ "subs-only" := by
  intro h
  have h2 := congrArg String.data h
  rw [String.data_append] at h2
  have hm : ("mismatch:" : String).data = ['m', 'i', 's', 'm', 'a', 't', 'c', 'h', ':'] := rfl
  have hs : ("subs-only" : String).data = ['s', 'u', 'b', 's', '-', 'o', 'n', 'l', 'y'] := rfl
  rw [hm, hs] at h2
  simp at h2

/-- C3 (amended): given a successful probe and no audio track tagged with a
desired language, `verify_language` rejects with reason "subs-only" exactly
when the `reject_subs_only` parameter is set and some embedded subtitle
track's language tag is in the desired set — independently of `require_dub`
(which, on its own, yields the distinct reason "dub-required"); with
`reject_subs_only` unset a subtitles-only file is never rejected on that
ground. -/
theorem claim_C3_subs_only (cfg : LGConfig) (env : VerifyEnv) (path : String)
    (pt : Option (List String)) (rd : Option Bool) (rx : Option Bool)
    (al : Option (List String)) (rso : Bool) (meta : ProbeMeta)
    (hp : env.probe = Except.ok meta)
    (hna : audio_lang_indices meta (desiredTags cfg pt) = []) :
    ((verify_language cfg env path pt rd rx al rso).1 = false ∧
      (verify_language cfg env path pt rd rx al rso).2.1 = "subs-only") ↔
      (rso = true ∧ has_subtitles_in_lang meta (desiredTags cfg pt) = true) := by
  have tail : (rso && has_subtitles_in_lang meta (desiredTags cfg pt)) = false →
      (verify_language cfg env path pt rd rx al rso).1 = true ∨
      (verify_language cfg env path pt rd rx al rso).2.1 ≠ "subs-only" := by
    intro hcase
    unfold verify_language
    rw [hp]
    simp only [hna]
    simp only [hcase]
    (repeat' split) <;>
      first
        | (left; rfl)
        | (right; exact mismatch_ne_subs_only _)
        | (right; decide)
        | simp_all
  constructor
  · intro hres
    by_cases hcase : (rso && has_subtitles_in_lang meta (desiredTags cfg pt)) = true
    · rw [Bool.and_eq_true] at hcase
      exact hcase
    · rcases tail (Bool.eq_false_iff.mpr hcase) with h | h
      · rw [hres.1] at h
        exact absurd h (by simp)
      · exact absurd hres.2 h
  · intro hcase
    unfold verify_language
    rw [hp]
    simp [hna, hcase.1, hcase.2]

/-- Witness for C3 at a concrete input: a file with only a `de` subtitle
track, `require_dub` explicitly false and `reject_subs_only` true is
rejected with reason "subs-only". -/
theorem claim_C3_witness :
    (verify_language cfg0 envSubs "/v/ep.mp4" none (some false) none none true).1 = false ∧
    (verify_language cfg0 envSubs "/v/ep.mp4" none (some false) none none true).2.1 =
      "subs-only" :=
  (claim_C3_subs_only cfg0 envSubs "/v/ep.mp4" none (some false) none none true metaDeSub
      rfl (by decide)).mpr ⟨rfl, by decide⟩

/-- Counterexample for C3 as stated: with `require_dub` not set (the
parameter is explicitly false and the configured default is false), a file
carrying only a `de`-tagged subtitle track is still rejected with reason
"subs-only", because the rejection is gated by the independent
`reject_subs_only` parameter, not by `require_dub`. -/
theorem claim_C3_cex :
    verify_language cfg0 envSubs "/v/ep.mp4" none (some false) none none true =
      (false, "subs-only", none) ∧
    cfg0.require_dub = false ∧
    audio_lang_indices metaDeSub (desiredTags cfg0 none) = [] := by
  refine ⟨?_, rfl, ?_⟩ <;> decide

/-- Helper for C4: a successful remux returns the input path with the
language-suffix extension. -/
theorem remux_to_de_some (env : RemuxEnv) (p : String) (meta : ProbeMeta)
    (desired : List String) (pref : Option String)
    (h : audio_lang_indices meta desired ≠ []) (h1 : env.ffmpeg_ok = true)
    (h2 : env.replace_ok = true) :
    remux_to_de env p meta desired pref =
      some (pyWithSuffix p ("." ++ remuxSuffixToken pref desired ++ ".mkv")) := by
  unfold remux_to_de
  cases hi : audio_lang_indices meta desired with
  | nil => exact absurd hi h
  | cons i rest => simp [h1, h2]

/-- Helper for C4: a non-empty `audio_lang_indices` list starts with the
index of an audio stream whose effective language tag is desired. -/
theorem audio_lang_indices_head (meta : ProbeMeta) (desired : List String)
    (h : audio_lang_indices meta desired ≠ []) :
    ∃ s ∈ meta.streams, s.codec_type = "audio" ∧
      desired.contains (streamLang s) = true ∧
      (audio_lang_indices meta desired).head? = some s.index := by
  unfold audio_lang_indices at h ⊢
  cases hl : (list_streams meta "audio").filter (fun s => desired.contains (streamLang s)) with
  | nil => rw [hl] at h; exact absurd rfl h
  | cons s t =>
    have hmem : s ∈ (list_streams meta "audio").filter
        (fun s => desired.contains (streamLang s)) := by
      rw [hl]; exact List.mem_cons_self s t
    have h1 := List.mem_filter.mp hmem
    have h2 := List.mem_filter.mp h1.1
    refine ⟨s, h2.1, ?_, h1.2, ?_⟩
    · have := h2.2
      simpa using this
    · rfl

/-- C4 (amended): given a successful probe reporting at least one audio
track tagged with a desired language, `verify_language` accepts
immediately; the reason is "tag-match" (with no repaired path) when remux
is disabled, and `"tag-match-remuxed"` — not the claimed "tag-match" — with
the stream-copied output path (the input path carrying a language-suffix
extension) when remux is allowed and both the ffmpeg stream copy and the
final rename succeed.  The matched track really is a desired-tagged audio
stream: the first remuxed index belongs to an audio stream whose effective
language tag is in the desired set, and `remux_cmd` maps exactly the first
video track plus that audio track with codec copy. -/
theorem claim_C4_tag_match (cfg : LGConfig) (env : VerifyEnv) (path : String)
    (pt : Option (List String)) (rd : Option Bool) (rx : Option Bool)
    (al : Option (List String)) (rso : Bool) (meta : ProbeMeta)
    (hp : env.probe = Except.ok meta)
    (hne : audio_lang_indices meta (desiredTags cfg pt) ≠ []) :
    (verify_language cfg env path pt rd rx al rso).1 = true ∧
    (rx.getD cfg.remux_to_de_if_present = false →
      verify_language cfg env path pt rd rx al rso = (true, "tag-match", none)) ∧
    (rx.getD cfg.remux_to_de_if_present = true → env.remux.ffmpeg_ok = true →
      env.remux.replace_ok = true →
      verify_language cfg env path pt rd rx al rso =
        (true, "tag-match-remuxed",
          some (pyWithSuffix path ("." ++
            remuxSuffixToken (whisperSequence cfg al).head? (desiredTags cfg pt) ++ ".mkv")))) ∧
    (∃ s ∈ meta.streams, s.codec_type = "audio" ∧
      (desiredTags cfg pt).contains (streamLang s) = true ∧
      (audio_lang_indices meta (desiredTags cfg pt)).head? = some s.index ∧
      remux_cmd "ffmpeg" path s.index (pyWithSuffix path ("." ++
          remuxSuffixToken (whisperSequence cfg al).head? (desiredTags cfg pt) ++ ".mkv") ++ ".tmp") =
        ["ffmpeg", "-v", "error", "-i", path, "-map", "0:v:0", "-map",
         "0:" ++ toString s.index, "-c", "copy",
         pyWithSuffix path ("." ++
          remuxSuffixToken (whisperSequence cfg al).head? (desiredTags cfg pt) ++ ".mkv") ++ ".tmp",
         "-y"]) := by
  refine ⟨?_, ?_, ?_, ?_⟩
  · unfold verify_language
    rw [hp]
    simp only [hne]
    (repeat' split) <;> simp
  · intro hrx
    unfold verify_language
    rw [hp]
    simp [hne, hrx]
  · intro hrx h1 h2
    unfold verify_language
    rw [hp]
    simp [hne, hrx,
      remux_to_de_some env.remux path meta (desiredTags cfg pt)
        (whisperSequence cfg al).head? hne h1 h2]
  · obtain ⟨s, hs, hcodec, hdes, hhead⟩ := audio_lang_indices_head meta (desiredTags cfg pt) hne
    exact ⟨s, hs, hcodec, hdes, hhead, rfl⟩

/-- Witness for C4 at a concrete input: a file whose only audio track is
tagged `de` is accepted, and the matched stream is that audio track. -/
theorem claim_C4_witness :
    (verify_language cfg0 envTag "/v/ep.mp4" none none none none true).1 = true ∧
    verify_language cfg0 envTag "/v/ep.mp4" none none none none true =
      (true, "tag-match-remuxed",
        some (pyWithSuffix "/v/ep.mp4" ("." ++
          remuxSuffixToken (whisperSequence cfg0 none).head? (desiredTags cfg0 none) ++ ".mkv"))) :=
  ⟨(claim_C4_tag_match cfg0 envTag "/v/ep.mp4" none none none none true metaDeAudio
      rfl (by decide)).1,
   (claim_C4_tag_match cfg0 envTag "/v/ep.mp4" none none none none true metaDeAudio
      rfl (by decide)).2.2.1 rfl rfl rfl⟩

/-- Counterexample for C4 as stated: when remux is allowed and succeeds,
the accepting reason is "tag-match-remuxed", not the claimed "tag-match" —
the repaired path is only ever returned together with the changed reason
string. -/
theorem claim_C4_cex :
    verify_language cfg0 envTag "/v/ep.mp4" none none none none true =
      (true, "tag-match-remuxed", some "/v/ep.de.mkv") ∧
    "tag-match-remuxed" ≠ "tag-match" := by
  refine ⟨?_, ?_⟩ <;> decide

/-- Helper for C6: starting from retry counter `r ≥ 1`, the back-off
delays slept by the `unrestrict_link` loop are the consecutive doubling
delays `10 * 2 ^ (r - 1 + i)`, and there are at most `fuel` of them. -/
theorem unrestrictGo_waits (n : Nat) : ∀ (r : Nat) (oracle : Nat → RdAttempt) (mr : Nat),
    1 ≤ r →
    ∃ k, k ≤ n ∧ (unrestrictGo oracle mr r n).2 =
      (List.range k).map (fun i => 10 * 2 ^ (r - 1 + i)) := by
  induction n with
  | zero => intro r oracle mr _; exact ⟨0, Nat.le_refl 0, rfl⟩
  | succ n ih =>
    intro r oracle mr hr
    by_cases hlt : r < mr
    · have hw : (if r > 0 then [10 * 2 ^ (r - 1)] else []) = [10 * 2 ^ (r - 1)] :=
        if_pos hr
      cases horacle : oracle r with
      | success u =>
        refine ⟨1, by omega, ?_⟩
        simp [unrestrictGo, hlt, horacle, hw, List.range_succ]
      | unavailableFile =>
        refine ⟨1, by omega, ?_⟩
        simp [unrestrictGo, hlt, horacle, hw, List.range_succ]
      | transient =>
        obtain ⟨k, hk, hwaits⟩ := ih (r + 1) oracle mr (by omega)
        have hw2 : (unrestrictGo oracle mr (r + 1) n).2 =
            (List.range k).map (fun i => 10 * 2 ^ (r + i)) := by
          simpa [Nat.add_sub_cancel] using hwaits
        refine ⟨k + 1, by omega, ?_⟩
        simp only [unrestrictGo, if_pos hlt, horacle, hw]
        rw [hw2, List.range_succ_eq_map, List.map_cons, List.map_map]
        simp only [List.singleton_append, List.cons_append, List.nil_append]
        congr 1
        refine List.map_congr_left ?_
        intro i _
        simp only [Function.comp_apply]
        rw [(by omega : r - 1 + (i + 1) = r + i)]
    · exact ⟨0, by omega, by simp [unrestrictGo, hlt]⟩

/-- Helper for C6: for every oracle and cap, the `unrestrict_link` back-off
delays are `10, 20, 40, …` — the first `k` doubling delays for some
`k ≤ max_retries - 1`. -/
theorem unrestrict_link_waits (oracle : Nat → RdAttempt) (mr : Nat) :
    ∃ k, k ≤ mr - 1 ∧
      (unrestrict_link oracle mr).2 = (List.range k).map (fun i => 10 * 2 ^ i) := by
  unfold unrestrict_link
  cases mr with
  | zero => exact ⟨0, Nat.le_refl 0, by simp [unrestrictGo]⟩
  | succ m =>
    cases horacle : oracle 0 with
    | success u => exact ⟨0, by omega, by simp [unrestrictGo, horacle]⟩
    | unavailableFile => exact ⟨0, by omega, by simp [unrestrictGo, horacle]⟩
    | transient =>
      obtain ⟨k, hk, hwaits⟩ := unrestrictGo_waits m 1 oracle (m + 1) (Nat.le_refl 1)
      refine ⟨k, by omega, ?_⟩
      simp only [unrestrictGo, Nat.zero_lt_succ, if_pos, horacle]
      simp only [Nat.lt_irrefl, gt_iff_lt, if_neg, List.nil_append]
      rw [hwaits]
      simp

/-- Helper for C6: the iteration tail (yt-dlp attempt and exception
handler) of `_download_video` emits no demotion event of its own, so a
demotion in its trace comes from the continuation. -/
theorem dvYdl_demote_zero (env : DvEnv) (mr : Nat) (iv : Bool) (st : DvState) (r : Nat)
    (recurse : DvState → Option Bool × List DvEvent)
    (hrec : ∀ (st' : DvState) (b a : Nat), DvEvent.demote b a ∈ (recurse st').2 → a = 0)
    (b a : Nat)
    (h : DvEvent.demote b a ∈ (dvYdl env mr iv st (DvEvent.iter r) recurse).2) :
    a = 0 := by
  simp only [dvYdl] at h
  split at h
  · simp at h
  · simp at h
  · simp at h
  · split at h
    · split at h <;> simp at h
    · simp only [List.mem_cons] at h
      rcases h with h | h | h
      · simp at h
      · simp at h
      · exact hrec _ b a h

/-- Helper for C6: every demotion event recorded by the `_download_video`
loop resets the retry counter to zero. -/
theorem dvGo_demote_zero : ∀ (fuel : Nat) (env : DvEnv) (mr : Nat) (iv : Bool)
    (st : DvState) (b a : Nat),
    DvEvent.demote b a ∈ (dvGo env mr iv st fuel).2 → a = 0 := by
  intro fuel
  induction fuel with
  | zero => intro env mr iv st b a h; simp [dvGo] at h
  | succ n ih =>
    intro env mr iv st b a h
    simp only [dvGo] at h
    split at h
    · split at h
      · simp at h
      · split at h
        · split at h
          · exact dvYdl_demote_zero env mr iv _ st.retries _
              (fun st' b' a' h' => ih env mr iv st' b' a' h') b a h
          · split at h
            · simp only [List.mem_cons] at h
              rcases h with h | h | h
              · simp at h
              · simp only [DvEvent.demote.injEq] at h
                exact h.2
              · simp at h
            · simp only [List.mem_cons] at h
              rcases h with h | h | h
              · simp at h
              · simp only [DvEvent.demote.injEq] at h
                exact h.2
              · exact ih env mr iv _ b a h
        · exact dvYdl_demote_zero env mr iv _ st.retries _
            (fun st' b' a' h' => ih env mr iv st' b' a' h') b a h
    · simp at h

/-- C6 (amended): a failed unrestrict resolution demotes the task to direct
download and RESETS the retry counter to zero — every demotion event of the
`_download_video` loop records `retries_after = 0`, so the direct-download
phase gets a fresh `max_retries` budget instead of inheriting the count
already spent; and the unrestrict resolution itself backs off
exponentially, sleeping the doubling delays `10 * 2^i` seconds with the
attempt count capped at its own `max_retries`. -/
theorem claim_C6_demote_and_backoff :
    (∀ (env : DvEnv) (mr : Nat) (iv : Bool) (st : DvState) (fuel b a : Nat),
      DvEvent.demote b a ∈ (dvGo env mr iv st fuel).2 → a = 0) ∧
    (∀ (oracle : Nat → RdAttempt) (mr : Nat),
      ∃ k, k ≤ mr - 1 ∧
        (unrestrict_link oracle mr).2 = (List.range k).map (fun i => 10 * 2 ^ i)) :=
  ⟨fun env mr iv st fuel b a h => dvGo_demote_zero fuel env mr iv st b a h,
   unrestrict_link_waits⟩

/-- Witness for C6 at a concrete input: a run in which Real-Debrid first
resolves, the transfer fails once (one retry spent), and the next
resolution fails, contains the demotion event `demote 1 0`; the theorem
applied to that membership yields that the counter after demotion is 0. -/
theorem claim_C6_witness :
    DvEvent.demote 1 0 ∈
      (dvGo cexDvEnv 3 (isVoeUrl "https://voe.sx/abc")
        { url := "https://voe.sx/abc", retries := 0, rd_failed := false, rd_calls := 0,
          ydl_calls := 0, iters := 0 } 8).2 ∧
    (0 : Nat) = 0 :=
  ⟨by decide,
   claim_C6_demote_and_backoff.1 cexDvEnv 3 (isVoeUrl "https://voe.sx/abc")
     { url := "https://voe.sx/abc", retries := 0, rd_failed := false, rd_calls := 0,
       ydl_calls := 0, iters := 0 } 8 1 0 (by decide)⟩

/-- Counterexample for C6 as stated: with `max_retries = 3`, one retry was
already spent when the unrestrict resolution failed (the trace records
`demote 1 0`), yet the run performed four yt-dlp attempts in total — the
demotion reset the counter to 0 instead of keeping the spent retry counted
against the budget, so the direct-download phase got a full fresh budget of
three further attempts. -/
theorem claim_C6_cex :
    (dvRun cexDvEnv 3 "https://voe.sx/abc").2 =
      [DvEvent.iter 0, DvEvent.ydlAttempt 0 0, DvEvent.iter 1, DvEvent.demote 1 0,
       DvEvent.iter 0, DvEvent.ydlAttempt 1 0, DvEvent.iter 1, DvEvent.ydlAttempt 2 1,
       DvEvent.iter 2, DvEvent.ydlAttempt 3 2] ∧
    ((dvRun cexDvEnv 3 "https://voe.sx/abc").2.countP
      (fun e => match e with | DvEvent.ydlAttempt _ _ => true | _ => false)) = 4 ∧
    3 < 4 := by
  refine ⟨?_, ?_, ?_⟩ <;> decide

/-! ## Lemmas about the stable sort and the rank key (for C5) -/

/-- Helper: `firstMinBy` returns none only on the empty list. -/
theorem firstMinBy_eq_none {α : Type} (f : α → Nat) (l : List α) :
    firstMinBy f l = none ↔ l = [] := by
  cases l with
  | nil => simp [firstMinBy]
  | cons x xs =>
    simp only [firstMinBy]
    cases firstMinBy f xs with
    | none => simp
    | some m => by_cases hc : f x ≤ f m <;> simp [hc]

/-- Helper: the head of `insertionSort` by a key is the earliest element of
minimal key. -/
theorem insertionSort_head {α : Type} (f : α → Nat) (l : List α) :
    (l.insertionSort (fun a b => f a ≤ f b)).head? = firstMinBy f l := by
  induction l with
  | nil => rfl
  | cons x xs ih =>
    rw [List.insertionSort]
    cases hs : List.insertionSort (fun a b => f a ≤ f b) xs with
    | nil =>
      have hxs : xs = [] := by
        have hp := List.perm_insertionSort (fun a b => f a ≤ f b) xs
        rw [hs] at hp
        exact hp.symm.eq_nil
      subst hxs
      rfl
    | cons h t =>
      have hh : firstMinBy f xs = some h := by
        rw [← ih, hs]; rfl
      have hfx : firstMinBy f (x :: xs) = if f x ≤ f h then some x else some h := by
        simp only [firstMinBy, hh]
      rw [hfx, List.orderedInsert]
      by_cases hc : f x ≤ f h
      · rw [if_pos hc, if_pos hc]
        rfl
      · rw [if_neg hc, if_neg hc]
        rfl

/-- Helper: `firstMinBy` yields a member of minimal key. -/
theorem firstMinBy_mem_min {α : Type} (f : α → Nat) :
    ∀ {l : List α} {m : α}, firstMinBy f l = some m → m ∈ l ∧ ∀ v ∈ l, f m ≤ f v := by
  intro l
  induction l with
  | nil => intro m h; simp [firstMinBy] at h
  | cons x xs ih =>
    intro m h
    cases hfm : firstMinBy f xs with
    | none =>
      simp only [firstMinBy, hfm] at h
      obtain rfl : x = m := by injection h
      have hxs : xs = [] := (firstMinBy_eq_none f xs).mp hfm
      subst hxs
      refine ⟨List.mem_cons_self x [], ?_⟩
      intro v hv
      rcases List.mem_cons.mp hv with rfl | hv
      · exact Nat.le_refl _
      · simp at hv
    | some mm =>
      simp only [firstMinBy, hfm] at h
      obtain ⟨hmmMem, hmmMin⟩ := ih hfm
      by_cases hc : f x ≤ f mm
      · rw [if_pos hc] at h
        obtain rfl : x = m := by injection h
        refine ⟨List.mem_cons_self x xs, ?_⟩
        intro v hv
        rcases List.mem_cons.mp hv with rfl | hv
        · exact Nat.le_refl _
        · exact Nat.le_trans hc (hmmMin v hv)
      · rw [if_neg hc] at h
        obtain rfl : mm = m := by injection h
        refine ⟨List.mem_cons_of_mem x hmmMem, ?_⟩
        intro v hv
        rcases List.mem_cons.mp hv with rfl | hv
        · exact Nat.le_of_lt (Nat.lt_of_not_le hc)
        · exact hmmMin v hv

/-- Helper: `firstMinBy` is the first element whose key is at most the
minimum. -/
theorem firstMinBy_find? {α : Type} (f : α → Nat) :
    ∀ {l : List α} {m : α}, firstMinBy f l = some m →
      l.find? (fun v => decide (f v ≤ f m)) = some m := by
  intro l
  induction l with
  | nil => intro m h; simp [firstMinBy] at h
  | cons x xs ih =>
    intro m h
    cases hfm : firstMinBy f xs with
    | none =>
      simp only [firstMinBy, hfm] at h
      obtain rfl : x = m := by injection h
      rw [List.find?_cons_of_pos _ (by simp)]
    | some mm =>
      simp only [firstMinBy, hfm] at h
      by_cases hc : f x ≤ f mm
      · rw [if_pos hc] at h
        obtain rfl : x = m := by injection h
        rw [List.find?_cons_of_pos _ (by simp)]
      · rw [if_neg hc] at h
        obtain rfl : mm = m := by injection h
        rw [List.find?_cons_of_neg _ (by simpa using hc)]
        exact ih hfm

/-- Helper: `find?` only depends on the predicate's values on members. -/
theorem find?_congr_members {α : Type} {p q : α → Bool} :
    ∀ {l : List α}, (∀ a ∈ l, p a = q a) → l.find? p = l.find? q := by
  intro l
  induction l with
  | nil => intro _; rfl
  | cons x xs ih =>
    intro h
    have hx : p x = q x := h x (List.mem_cons_self x xs)
    have hxs : ∀ a ∈ xs, p a = q a := fun a ha => h a (List.mem_cons_of_mem x ha)
    cases hp : p x with
    | true =>
      rw [List.find?_cons_of_pos _ hp, List.find?_cons_of_pos _ (by rw [← hx]; exact hp)]
    | false =>
      rw [List.find?_cons_of_neg _ (by simp [hp]),
        List.find?_cons_of_neg _ (by simp [← hx, hp])]
      exact ih hxs

/-- Helper: a first-match index is a position of the list. -/
theorem firstMatchIdx_lt {α : Type} {p : α → Bool} :
    ∀ {l : List α} {i : Nat}, firstMatchIdx p l = some i → i < l.length := by
  intro l
  induction l with
  | nil => intro i h; simp [firstMatchIdx] at h
  | cons x xs ih =>
    intro i h
    simp only [firstMatchIdx] at h
    by_cases hp : p x
    · rw [if_pos hp] at h
      obtain rfl : (0 : Nat) = i := by injection h
      simp
    · rw [if_neg hp] at h
      cases hfm : firstMatchIdx p xs with
      | none => rw [hfm] at h; simp at h
      | some j =>
        rw [hfm] at h
        obtain rfl : j + 1 = i := by injection h
        have := ih hfm
        simp only [List.length_cons]
        omega

/-- Helper: when nothing in the first chunk matches, the first-match index
over the concatenation is the inner index shifted by the chunk length. -/
theorem firstMatchIdx_append {α : Type} {p : α → Bool} :
    ∀ {l1 : List α} (l2 : List α), (∀ y ∈ l1, p y = false) →
      firstMatchIdx p (l1 ++ l2) = (firstMatchIdx p l2).map (fun j => j + l1.length) := by
  intro l1
  induction l1 with
  | nil =>
    intro l2 _
    cases h2 : firstMatchIdx p l2 <;> simp [h2]
  | cons y l1 ih =>
    intro l2 h
    have hy : p y = false := h y (List.mem_cons_self y l1)
    simp only [List.cons_append, firstMatchIdx]
    rw [if_neg (by simp [hy])]
    simp only [List.append_eq]
    rw [ih l2 (fun z hz => h z (List.mem_cons_of_mem y hz))]
    cases h2 : firstMatchIdx p l2 <;> simp [h2] <;> omega

/-- Helper: no match anywhere means no index. -/
theorem firstMatchIdx_none {α : Type} {p : α → Bool} :
    ∀ {l : List α}, (∀ y ∈ l, p y = false) → firstMatchIdx p l = none := by
  intro l
  induction l with
  | nil => intro _; rfl
  | cons y l ih =>
    intro h
    simp only [firstMatchIdx]
    rw [if_neg (by simp [h y (List.mem_cons_self y l)]),
      ih (fun z hz => h z (List.mem_cons_of_mem y hz))]
    rfl

/-- Helper: a successful `findSome?` splits the list at the first element
the function accepts. -/
theorem findSome?_split {α β : Type} {g : α → Option β} :
    ∀ {l : List α} {b : β}, l.findSome? g = some b →
      ∃ l1 a l2, l = l1 ++ a :: l2 ∧ g a = some b ∧ ∀ x ∈ l1, g x = none := by
  intro l
  induction l with
  | nil => intro b h; simp at h
  | cons x xs ih =>
    intro b h
    rw [List.findSome?_cons] at h
    cases hx : g x with
    | some c =>
      rw [hx] at h
      exact ⟨[], x, xs, rfl, hx.trans h, by intro z hz; simp at hz⟩
    | none =>
      rw [hx] at h
      obtain ⟨l1, a, l2, rfl, hga, hl1⟩ := ih h
      refine ⟨x :: l1, a, l2, rfl, hga, ?_⟩
      intro z hz
      rcases List.mem_cons.mp hz with rfl | hz
      · exact hx
      · exact hl1 z hz

/-- Helper: stability of one ordered insertion, seen through rank-class
filters: inserting `x` by the non-strict key comparison leaves every
"key = r" subsequence exactly as if `x` had been put in front. -/
theorem filter_orderedInsert {α : Type} (f : α → Nat) (r : Nat) (x : α) :
    ∀ l : List α,
      (List.orderedInsert (fun a b => f a ≤ f b) x l).filter (fun v => f v == r) =
        (x :: l).filter (fun v => f v == r) := by
  intro l
  induction l with
  | nil => rfl
  | cons y ys ih =>
    rw [List.orderedInsert]
    by_cases hc : f x ≤ f y
    · rw [if_pos hc]
    · rw [if_neg hc]
      have hlt : f y < f x := Nat.lt_of_not_le hc
      by_cases hqx : f x = r
      · have hbx : (f x == r) = true := by simpa using hqx
        have hby : (f y == r) = false := by
          have : f y ≠ r := by omega
          simpa using this
        simp [List.filter_cons, hbx, hby, ih]
      · have hbx : (f x == r) = false := by simpa using hqx
        simp [List.filter_cons, hbx, ih]

/-- Helper: `firstMinBy` agrees with `find?` over a boolean characterisation
of the minimal-rank class: if `w` is the first element satisfying `B`, every
element has key at least `N`, and having key at most `N` is equivalent to
`B`, then `w` is the earliest minimal element. -/
theorem firstMinBy_eq_of_find? {α : Type} {f : α → Nat} {B : α → Bool} {N : Nat}
    {vs : List α} {w : α}
    (hfind : vs.find? B = some w)
    (hge : ∀ v ∈ vs, N ≤ f v)
    (hiff : ∀ v ∈ vs, (f v ≤ N ↔ B v = true)) :
    firstMinBy f vs = some w := by
  have hmem := List.mem_of_find?_eq_some hfind
  have hne : vs ≠ [] := List.ne_nil_of_mem hmem
  cases hfm : firstMinBy f vs with
  | none => exact absurd ((firstMinBy_eq_none f vs).mp hfm) hne
  | some m =>
    obtain ⟨hmMem, hmMin⟩ := firstMinBy_mem_min f hfm
    have hBw : B w = true := List.find?_some hfind
    have hwN : f w ≤ N := (hiff w hmem).mpr hBw
    have hmN : f m = N := Nat.le_antisymm (Nat.le_trans (hmMin w hmem) hwN) (hge m hmMem)
    have hfind2 := firstMinBy_find? f hfm
    have hcong : ∀ v ∈ vs, (fun v => decide (f v ≤ f m)) v = B v := by
      intro v hv
      by_cases hb : B v = true
      · have hle : f v ≤ f m := by rw [hmN]; exact (hiff v hv).mpr hb
        simp [hle, hb]
      · have hbf : B v = false := Bool.eq_false_iff.mpr hb
        have hnle : ¬ f v ≤ f m := by
          rw [hmN]
          intro hle
          exact hb ((hiff v hv).mp hle)
        simp [hnle, hbf]
    rw [find?_congr_members hcong, hfind] at hfind2
    exact hfind2.symm

/-- Helper for C5, exact pass: when the exact pass of `pick_best` yields
`w` and the priority list has at most 100 entries, `w` is the earliest
variant of minimal rank. -/
theorem pickBestExact_firstMin (prio : LangPrio) (vs : List EpisodeVariant)
    (w : EpisodeVariant) (hlen : prio.length ≤ 100)
    (h : pickBestExact prio vs = some w) :
    firstMinBy (rank prio) vs = some w := by
  obtain ⟨P1, pstar, P2, hsplit, hfp, hP1⟩ := findSome?_split h
  subst hsplit
  have hnoP1 : ∀ v ∈ vs, ∀ q ∈ P1, exactPair v q = false := by
    intro v hv q hq
    have := List.find?_eq_none.mp (hP1 q hq) v hv
    simpa using this
  have hlenP1 : P1.length ≤ 99 := by
    rw [List.length_append, List.length_cons] at hlen
    omega
  have hge : ∀ v ∈ vs, P1.length ≤ rank (P1 ++ pstar :: P2) v := by
    intro v hv
    unfold rank
    rw [firstMatchIdx_append _ (hnoP1 v hv)]
    cases hin : firstMatchIdx (fun p => exactPair v p) (pstar :: P2) with
    | some j => simp
    | none =>
      simp only [Option.map_none']
      cases hwi : firstMatchIdx (fun p => wildAudio v p) (P1 ++ pstar :: P2) with
      | some j => simp <;> omega
      | none => simp <;> omega
  have hiff : ∀ v ∈ vs,
      (rank (P1 ++ pstar :: P2) v ≤ P1.length ↔ exactPair v pstar = true) := by
    intro v hv
    constructor
    · intro hle
      by_contra hB
      have hBf : exactPair v pstar = false := Bool.eq_false_iff.mpr hB
      have hinner : firstMatchIdx (fun p => exactPair v p) (pstar :: P2) =
          (firstMatchIdx (fun p => exactPair v p) P2).map (fun j => j + 1) := by
        simp [firstMatchIdx, hBf]
      unfold rank at hle
      rw [firstMatchIdx_append _ (hnoP1 v hv), hinner] at hle
      cases hin2 : firstMatchIdx (fun p => exactPair v p) P2 with
      | some j => rw [hin2] at hle; simp at hle <;> omega
      | none =>
        rw [hin2] at hle
        simp only [Option.map_none'] at hle
        cases hwi : firstMatchIdx (fun p => wildAudio v p) (P1 ++ pstar :: P2) with
        | some j => rw [hwi] at hle; simp at hle <;> omega
        | none => rw [hwi] at hle; simp at hle <;> omega
    · intro hB
      have h0 : firstMatchIdx (fun p => exactPair v p) (pstar :: P2) = some 0 := by
        simp [firstMatchIdx, hB]
      unfold rank
      rw [firstMatchIdx_append _ (hnoP1 v hv), h0]
      simp
  exact firstMinBy_eq_of_find? hfp hge hiff

/-- Helper for C5, wildcard pass: when the exact pass fails everywhere and
the tolerance pass yields `w` (priority list of at most 100 entries), `w`
is the earliest variant of minimal rank. -/
theorem pickBestWild_firstMin (prio : LangPrio) (vs : List EpisodeVariant)
    (w : EpisodeVariant) (hlen : prio.length ≤ 100)
    (hE : pickBestExact prio vs = none)
    (hW : pickBestWild prio vs = some w) :
    firstMinBy (rank prio) vs = some w := by
  have hEnone : ∀ v ∈ vs, firstMatchIdx (fun p => exactPair v p) prio = none := by
    intro v hv
    apply firstMatchIdx_none
    intro q hq
    have hfq := List.findSome?_eq_none_iff.mp hE q hq
    have := List.find?_eq_none.mp hfq v hv
    simpa using this
  obtain ⟨Q1, qstar, Q2, hsplit, hgq, hQ1⟩ := findSome?_split hW
  have hEnone2 : ∀ v ∈ vs,
      firstMatchIdx (fun p => exactPair v p) (Q1 ++ qstar :: Q2) = none := by
    rw [← hsplit]; exact hEnone
  subst hsplit
  have hq2 : qstar.2 = none := by
    by_contra hq2
    rw [if_neg hq2] at hgq
    simp at hgq
  rw [if_pos hq2] at hgq
  have hlenQ1 : Q1.length ≤ 99 := by
    rw [List.length_append, List.length_cons] at hlen
    omega
  have hnoQ1 : ∀ v ∈ vs, ∀ q ∈ Q1, wildAudio v q = false := by
    intro v hv q hq
    have hgq1 := hQ1 q hq
    by_cases hq2q : q.2 = none
    · rw [if_pos hq2q] at hgq1
      have hvq := List.find?_eq_none.mp hgq1 v hv
      unfold wildAudio
      rw [hq2q]
      simpa using hvq
    · unfold wildAudio
      cases hqq : q.2 with
      | none => exact absurd hqq hq2q
      | some s => simp [hqq]
  have hwB : ∀ v : EpisodeVariant, wildAudio v qstar = (v.audio_lang == qstar.1) := by
    intro v
    unfold wildAudio
    rw [hq2]
    simp
  have hge : ∀ v ∈ vs, 100 + Q1.length ≤ rank (Q1 ++ qstar :: Q2) v := by
    intro v hv
    unfold rank
    rw [hEnone2 v hv, firstMatchIdx_append _ (hnoQ1 v hv)]
    cases hin : firstMatchIdx (fun p => wildAudio v p) (qstar :: Q2) with
    | some j => simp <;> omega
    | none => simp <;> omega
  have hiff : ∀ v ∈ vs, (rank (Q1 ++ qstar :: Q2) v ≤ 100 + Q1.length ↔
      (v.audio_lang == qstar.1) = true) := by
    intro v hv
    constructor
    · intro hle
      by_contra hB
      have hBf : (v.audio_lang == qstar.1) = false := Bool.eq_false_iff.mpr hB
      have hBf2 : wildAudio v qstar = false := by rw [hwB]; exact hBf
      have hinner : firstMatchIdx (fun p => wildAudio v p) (qstar :: Q2) =
          (firstMatchIdx (fun p => wildAudio v p) Q2).map (fun j => j + 1) := by
        simp [firstMatchIdx, hBf2]
      unfold rank at hle
      rw [hEnone2 v hv, firstMatchIdx_append _ (hnoQ1 v hv), hinner] at hle
      cases hin2 : firstMatchIdx (fun p => wildAudio v p) Q2 with
      | some j => rw [hin2] at hle; simp at hle <;> omega
      | none => rw [hin2] at hle; simp at hle <;> omega
    · intro hB
      have h0 : firstMatchIdx (fun p => wildAudio v p) (qstar :: Q2) = some 0 := by
        simp [firstMatchIdx, hwB, hB]
      unfold rank
      rw [hEnone2 v hv, firstMatchIdx_append _ (hnoQ1 v hv), h0]
      simp <;> omega
  exact firstMinBy_eq_of_find? hgq hge hiff

/-- C5 (amended, for priority lists of at most 100 entries — the code's
`+100` wildcard offset makes longer lists collide with exact ranks): the
sentinel 999 is larger than any real rank; the embedded
`sort_by_preference` is the stable sort by the rank key, preserving input
order inside every rank class (the filter by any rank value is unchanged);
and whenever one of the two matching passes of `pick_best` succeeds, the
first element of `sort_by_preference` is exactly the `pick_best` result. -/
theorem claim_C5_sort_consistent (prio : LangPrio) (vs : List EpisodeVariant)
    (hlen : prio.length ≤ 100) :
    (∀ v : EpisodeVariant,
      ((firstMatchIdx (fun p => exactPair v p) prio).isSome ∨
        (firstMatchIdx (fun p => wildAudio v p) prio).isSome) → rank prio v < 999) ∧
    (∀ r : Nat, (sort_by_preference prio vs).filter (fun v => rank prio v == r) =
      vs.filter (fun v => rank prio v == r)) ∧
    (((pickBestExact prio vs).isSome ∨ (pickBestWild prio vs).isSome) →
      (sort_by_preference prio vs).head? = pick_best prio vs) := by
  refine ⟨?_, ?_, ?_⟩
  · intro v hv
    unfold rank
    cases he : firstMatchIdx (fun p => exactPair v p) prio with
    | some i =>
      have := firstMatchIdx_lt he
      simp <;> omega
    | none =>
      cases hwi : firstMatchIdx (fun p => wildAudio v p) prio with
      | some j =>
        have := firstMatchIdx_lt hwi
        simp <;> omega
      | none =>
        rw [he, hwi] at hv
        simp at hv
  · intro r
    unfold sort_by_preference
    induction vs with
    | nil => rfl
    | cons x xs ih =>
      rw [List.insertionSort, filter_orderedInsert (rank prio) r x _]
      by_cases hq : (rank prio x == r) = true <;>
        simp [List.filter_cons, hq, ih]
  · intro hsome
    cases hE : pickBestExact prio vs with
    | some w =>
      have hfm := pickBestExact_firstMin prio vs w hlen hE
      have hvs_ne : vs ≠ [] := by
        intro h0
        subst h0
        simp [firstMinBy] at hfm
      have hprio_ne : prio ≠ [] := by
        intro h0
        subst h0
        simp [pickBestExact] at hE
      have hp : pick_best prio vs = some w := by
        unfold pick_best
        rw [if_neg (by simp [hprio_ne, hvs_ne]), hE]
      rw [hp, sort_by_preference, insertionSort_head, hfm]
    | none =>
      cases hW : pickBestWild prio vs with
      | some w =>
        have hfm := pickBestWild_firstMin prio vs w hlen hE hW
        have hvs_ne : vs ≠ [] := by
          intro h0
          subst h0
          simp [firstMinBy] at hfm
        have hprio_ne : prio ≠ [] := by
          intro h0
          subst h0
          simp [pickBestWild] at hW
        have hp : pick_best prio vs = some w := by
          unfold pick_best
          rw [if_neg (by simp [hprio_ne, hvs_ne]), hE, hW]
        rw [hp, sort_by_preference, insertionSort_head, hfm]
      | none =>
        rw [hE, hW] at hsome
        simp at hsome

/-- Witness for C5 at a concrete input: over the default priority list (6
entries, well within the bound) and the variants `[ja, de]`, the sorted
head equals the `pick_best` result, and the rank-0 class keeps its input
order. -/
theorem claim_C5_witness :
    (sort_by_preference DEFAULT_LANG_PRIORITY [vJa, vDe]).head? =
      pick_best DEFAULT_LANG_PRIORITY [vJa, vDe] ∧
    (sort_by_preference DEFAULT_LANG_PRIORITY [vJa, vDe]).filter
        (fun v => rank DEFAULT_LANG_PRIORITY v == 0) =
      [vJa, vDe].filter (fun v => rank DEFAULT_LANG_PRIORITY v == 0) :=
  ⟨(claim_C5_sort_consistent DEFAULT_LANG_PRIORITY [vJa, vDe] (by decide)).2.2
      (Or.inl (by decide)),
   (claim_C5_sort_consistent DEFAULT_LANG_PRIORITY [vJa, vDe] (by decide)).2.1 0⟩

set_option maxRecDepth 4000 in
/-- Counterexample for C5 as stated (for every priority list): with a
102-entry priority list — a wildcard `de` entry first and an exact
`(ja, de)` entry at index 101 — `pick_best` returns the exact-matching
variant A (the exact pass runs first), but variant B has wildcard rank
`100 + 0 = 100 < 101`, so `sort_by_preference` puts B first: the head of
the sorted list is not a valid `pick_best` result. -/
theorem claim_C5_cex :
    pick_best cexPrio [cexVarA, cexVarB] = some cexVarA ∧
    (sort_by_preference cexPrio [cexVarA, cexVarB]).head? = some cexVarB ∧
    cexVarB ≠ cexVarA ∧
    cexPrio.length = 102 := by
  refine ⟨?_, ?_, ?_, ?_⟩ <;> decide

/-- C7: whenever the guard at the top of `start_download` passes (no batch
is already active), the status record that the scraper holds when the call
ends has `is_downloading = false` and `cancel_requested = false`, both when
`process_series` returns normally and when an exception escapes (the
`finally` block calls `finish_download` in every case, also after a
failed or successful `reset_session`). -/
theorem claim_C7_finally_resets (st : DownloadStatus) (ps : PSOutcome)
    (reset_ok : Bool) (h : st.is_downloading = false) :
    ((scraper_start_download st ps reset_ok).2.1).is_downloading = false ∧
    ((scraper_start_download st ps reset_ok).2.1).cancel_requested = false := by
  unfold scraper_start_download
  rw [h]
  cases ps <;> simp [dsFinishDownload]

/-- Witness for C7 at a concrete input: the fresh record is idle, and both
outcomes of `process_series` leave the final record idle with the cancel
flag clear. -/
theorem claim_C7_witness :
    dsInit.is_downloading = false ∧
    (((scraper_start_download dsInit (PSOutcome.raises "x") false).2.1).is_downloading = false ∧
     ((scraper_start_download dsInit (PSOutcome.raises "x") false).2.1).cancel_requested = false) :=
  ⟨rfl, claim_C7_finally_resets dsInit (PSOutcome.raises "x") false rfl⟩

/-- C8: if `is_downloading` is already true when `start_download` is
entered, the call raises "Es läuft bereits ein Download!" before the `try`
block, leaves the status record untouched and never invokes
`process_series` — a second batch is rejected, not queued. -/
theorem claim_C8_reject_second_batch (st : DownloadStatus) (ps : PSOutcome)
    (reset_ok : Bool) (h : st.is_downloading = true) :
    scraper_start_download st ps reset_ok =
      (Except.error "Es läuft bereits ein Download!", st, false) := by
  unfold scraper_start_download
  rw [h]
  simp

/-- Witness for C8 at a concrete input: after `start_download` marked the
record active, a second call is rejected with the record unchanged. -/
theorem claim_C8_witness :
    (dsStartDownload dsInit).is_downloading = true ∧
    scraper_start_download (dsStartDownload dsInit) PSOutcome.ok true =
      (Except.error "Es läuft bereits ein Download!", dsStartDownload dsInit, false) :=
  ⟨rfl, claim_C8_reject_second_batch (dsStartDownload dsInit) PSOutcome.ok true rfl⟩

/-- C9: every rejecting return of `verify_language` (probe error,
subs-only, dub-required, or a content mismatch, including after the
post-remux recheck) carries `none` as the repaired path; a non-none
repaired path only ever accompanies acceptance. -/
theorem claim_C9_reject_no_repair (cfg : LGConfig) (env : VerifyEnv)
    (path : String) (pt : Option (List String)) (rd : Option Bool)
    (rx : Option Bool) (al : Option (List String)) (rso : Bool)
    (h : (verify_language cfg env path pt rd rx al rso).1 = false) :
    (verify_language cfg env path pt rd rx al rso).2.2 = none := by
  have key : (verify_language cfg env path pt rd rx al rso).1 = true ∨
      (verify_language cfg env path pt rd rx al rso).2.2 = none := by
    unfold verify_language
    split
    · right; rfl
    · lift_lets
      extract_lets
      (repeat' split) <;> (first | (left; rfl) | (right; rfl))
  rcases key with key | key
  · rw [h] at key
    exact absurd key (by simp)
  · exact key

/-- Witness for C9 at a concrete input: a failing probe rejects, and the
repaired path is none. -/
theorem claim_C9_witness :
    (verify_language cfg0 envProbeFail "/v/ep.mp4" none none none none true).1 = false ∧
    (verify_language cfg0 envProbeFail "/v/ep.mp4" none none none none true).2.2 = none :=
  ⟨rfl, claim_C9_reject_no_repair cfg0 envProbeFail "/v/ep.mp4" none none none none true rfl⟩

/-- C10: from the freshly constructed record, every sequence of
`DownloadStatus` operations maintains `cancel_requested → is_downloading`;
`request_cancel` returns false and leaves the record unchanged when idle;
`update` never touches either flag; and `finish_download` clears
`cancel_requested` whenever it clears `is_downloading`. -/
theorem claim_C10_cancel_invariant :
    (∀ ops : List DsOp,
      (dsRunOps ops).cancel_requested = true → (dsRunOps ops).is_downloading = true) ∧
    (∀ st : DownloadStatus, st.is_downloading = false → dsRequestCancel st = (false, st)) ∧
    (∀ (st : DownloadStatus) (t : String) (p c tot : Option Int) (m : String),
      (dsUpdate st t p c tot m).is_downloading = st.is_downloading ∧
      (dsUpdate st t p c tot m).cancel_requested = st.cancel_requested) ∧
    (∀ st : DownloadStatus,
      (dsFinishDownload st).is_downloading = false ∧
      (dsFinishDownload st).cancel_requested = false) := by
  have hupd : ∀ (st : DownloadStatus) (t : String) (p c tot : Option Int) (m : String),
      (dsUpdate st t p c tot m).is_downloading = st.is_downloading ∧
      (dsUpdate st t p c tot m).cancel_requested = st.cancel_requested := by
    intro st t p c tot m
    simp only [dsUpdate]
    refine ⟨?_, ?_⟩ <;> (repeat' split) <;> rfl
  have hstep : ∀ (st : DownloadStatus) (op : DsOp),
      (st.cancel_requested = true → st.is_downloading = true) →
      ((dsApply st op).cancel_requested = true → (dsApply st op).is_downloading = true) := by
    intro st op hinv
    cases op with
    | update t p c tot m =>
      intro hc
      simp only [dsApply] at hc ⊢
      have h2 := hupd st t p c tot m
      rw [h2.1]
      exact hinv (by rw [← h2.2]; exact hc)
    | startDl => intro _; rfl
    | finishDl => intro hc; simp [dsApply, dsFinishDownload] at hc
    | requestCancel =>
      intro hc
      simp only [dsApply, dsRequestCancel] at hc ⊢
      by_cases hd : st.is_downloading = true
      · simp [hd]
      · rw [if_neg hd] at hc ⊢
        exact absurd (hinv hc) hd
  refine ⟨?_, ?_, hupd, ?_⟩
  · intro ops
    have main : ∀ (l : List DsOp) (st : DownloadStatus),
        (st.cancel_requested = true → st.is_downloading = true) →
        ((l.foldl dsApply st).cancel_requested = true →
          (l.foldl dsApply st).is_downloading = true) := by
      intro l
      induction l with
      | nil => intro st h; exact h
      | cons op rest ih =>
        intro st h
        exact ih (dsApply st op) (hstep st op h)
    exact main ops dsInit (by intro h; simp [dsInit] at h)
  · intro st h
    unfold dsRequestCancel
    rw [h]
    simp
  · intro st
    exact ⟨rfl, rfl⟩

/-- Witness for C10 at a concrete input: after `start_download` followed by
`request_cancel` the cancel flag is set, and the theorem yields that the
record is still downloading. -/
theorem claim_C10_witness :
    (dsRunOps [DsOp.startDl, DsOp.requestCancel]).cancel_requested = true ∧
    (dsRunOps [DsOp.startDl, DsOp.requestCancel]).is_downloading = true :=
  ⟨rfl, claim_C10_cancel_invariant.1 [DsOp.startDl, DsOp.requestCancel] rfl⟩

end ScaP
